import Mathlib

/-!
Verification of the fuzzy-search library (`src/index.ts`).

Strings are modelled as `List Char` (`Str`), JS numbers as `ℚ`, and the
per-call option records as structures of `Option`-valued fields whose
defaults are applied with `Option.getD`, mirroring the destructuring
defaults in the source.  The two public entry points take the collection
and the field selector as `Option`s so that the falsy-guard behaviour of
`!list || !Array.isArray(list) || !field` is representable.  A falsy
field value (undefined, null or the empty string) is modelled as `[]`.
-/

set_option linter.unusedVariables false

namespace FuzzySearch

abbrev Str := List Char

/-- Textbook Levenshtein distance (unit cost for insert, delete,
substitute), used as the mathematical reference for the edit-distance
claims. -/
def lev : List Char → List Char → Nat
  | [], ys => ys.length
  | x :: xs, [] => (x :: xs).length
  | x :: xs, y :: ys =>
    if x = y then lev xs ys
    else 1 + min (lev xs (y :: ys)) (min (lev (x :: xs) ys) (lev xs ys))
termination_by xs ys => xs.length + ys.length
decreasing_by all_goals (simp only [List.length_cons]; omega)

/-- `a.startsWith(b)` on JS strings. -/
def jsStartsWith (s p : Str) : Bool := p.isPrefixOf s

/-- `s.includes(sub)` on JS strings: `sub` occurs contiguously in `s`. -/
def jsIncludes : Str → Str → Bool
  | s@([]), sub => sub.isEmpty
  | s@(_ :: t), sub => sub.isPrefixOf s || jsIncludes t sub

/-- `arr.indexOf(c)` on JS arrays: first index of `c`, `-1` when absent. -/
def jsIndexOf (l : Str) (c : Char) : Int :=
  if l.contains c then (List.indexOf c l : Int) else -1

/-- Case folding step of the normalizer (`toLowerCase` unless case
sensitive). -/
def normalizeStr (caseSensitive : Bool) (s : Str) : Str :=
  if caseSensitive then s else s.map Char.toLower

/-- The delimiter class of the word splitter `/[\s,，。.]+/`. -/
def isDelim (c : Char) : Bool :=
  c.isWhitespace || c = ',' || c = '，' || c = '。' || c = '.'

/-- `.split(/[\s,，。.]+/).filter(w => w.length > 0)`. -/
def splitWords (s : Str) : List Str :=
  (List.splitOnP isDelim s).filter (fun w => w ≠ [])

structure WeightConfig where
  exactMatch : ℚ
  prefixMatch : ℚ
  containsMatch : ℚ
  charSimilarity : ℚ
  lengthSimilarity : ℚ
  wordBoundary : ℚ
  substringMatch : ℚ
  commonPrefix : ℚ
deriving DecidableEq

def DEFAULT_WEIGHT_CONFIG : WeightConfig :=
  { exactMatch := 1
  , prefixMatch := 8/10
  , containsMatch := 6/10
  , charSimilarity := 4/10
  , lengthSimilarity := 2/10
  , wordBoundary := 7/10
  , substringMatch := 9/10
  , commonPrefix := 85/100 }

/-- `Partial<WeightConfig>`: a user override; `none` means absent. -/
structure PartialWeightConfig where
  exactMatch : Option ℚ
  prefixMatch : Option ℚ
  containsMatch : Option ℚ
  charSimilarity : Option ℚ
  lengthSimilarity : Option ℚ
  wordBoundary : Option ℚ
  substringMatch : Option ℚ
  commonPrefix : Option ℚ
deriving DecidableEq

/-- An override with no field set (`{}` in the source). -/
def noOverride : PartialWeightConfig :=
  ⟨none, none, none, none, none, none, none, none⟩

/-- `{ ...DEFAULT_WEIGHT_CONFIG, ...userWeightConfig }`. -/
def mergeWeights (u : PartialWeightConfig) : WeightConfig :=
  { exactMatch := u.exactMatch.getD DEFAULT_WEIGHT_CONFIG.exactMatch
  , prefixMatch := u.prefixMatch.getD DEFAULT_WEIGHT_CONFIG.prefixMatch
  , containsMatch := u.containsMatch.getD DEFAULT_WEIGHT_CONFIG.containsMatch
  , charSimilarity := u.charSimilarity.getD DEFAULT_WEIGHT_CONFIG.charSimilarity
  , lengthSimilarity := u.lengthSimilarity.getD DEFAULT_WEIGHT_CONFIG.lengthSimilarity
  , wordBoundary := u.wordBoundary.getD DEFAULT_WEIGHT_CONFIG.wordBoundary
  , substringMatch := u.substringMatch.getD DEFAULT_WEIGHT_CONFIG.substringMatch
  , commonPrefix := u.commonPrefix.getD DEFAULT_WEIGHT_CONFIG.commonPrefix }

structure SearchOptions where
  minScore : Option ℚ
  caseSensitive : Option Bool
  weightConfig : PartialWeightConfig
  enableCache : Option Bool
  maxEditDistance : Option Nat
deriving DecidableEq

/-- `Omit<SearchOptions, 'enableCache' | 'maxEditDistance'>`. -/
structure AllSearchOptions where
  minScore : Option ℚ
  caseSensitive : Option Bool
  weightConfig : PartialWeightConfig
deriving DecidableEq

structure MatchDetails where
  exactMatch : Bool
  prefixMatch : Bool
  containsMatch : Bool
  charSimilarity : ℚ
  lengthSimilarity : ℚ
  editSimilarity : ℚ
  wordMatches : Option Nat
deriving DecidableEq

def emptyDetails : MatchDetails :=
  ⟨false, false, false, 0, 0, 0, none⟩

structure SearchResult (α : Type) where
  item : α
  score : ℚ
  details : MatchDetails

-- ==================== heuristic scorers ====================

/-- `calculateCharSimilarityOptimized` (lines 329-345): Jaccard
similarity of the unique character sets, with a fast path for equal
strings.  `new Set(str)` is modelled by `List.dedup`. -/
def calculateCharSimilarityOptimized (str1 str2 : Str) : ℚ :=
  if str1 = [] ∨ str2 = [] then 0
  else if str1 = str2 then 1
  else
    let chars1 := str1.dedup
    let chars2 := str2.dedup
    let intersection := (chars1.filter (fun c => chars2.contains c)).length
    let union := chars1.length + chars2.length - intersection
    if 0 < union then (intersection : ℚ) / (union : ℚ) else 0

/-- `calculateSubstringMatch` (lines 353-367). -/
def calculateSubstringMatch (target search : Str) : ℚ :=
  if target = [] ∨ search = [] then 0
  else if jsIncludes target search then (search.length : ℚ) / (target.length : ℚ)
  else if jsIncludes search target then (target.length : ℚ) / (search.length : ℚ)
  else 0

/-- Length of the longest shared leading run (the loop of
`calculateCommonPrefix`, also the inner loop of
`calculateContinuousMatch`). -/
def commonPrefixLen : Str → Str → Nat
  | x :: xs, y :: ys => if x = y then commonPrefixLen xs ys + 1 else 0
  | _, _ => 0

/-- `calculateCommonPrefix` (lines 375-394). -/
def calculateCommonPrefix (str1 str2 : Str) : ℚ :=
  if str1 = [] ∨ str2 = [] then 0
  else
    let commonLength := commonPrefixLen str1 str2
    if commonLength = 0 then 0
    else (commonLength : ℚ) / ((max str1.length str2.length : Nat) : ℚ)

/-- `calculateContinuousMatch` (lines 402-429).  The outer loop runs for
`0 ≤ i ≤ target.length - search.length`, i.e. not at all when `search`
is longer than `target`; each iteration measures the run of
character-for-character matches of `search` against `target` starting at
offset `i`. -/
def calculateContinuousMatch (target search : Str) : ℚ :=
  if target = [] ∨ search = [] then 0
  else
    let maxContinuousLength :=
      ((List.range (target.length + 1 - search.length)).map
        (fun i => commonPrefixLen (target.drop i) search)).foldr max 0
    if maxContinuousLength = 0 then 0
    else
      let continuousRatio := (maxContinuousLength : ℚ) / (search.length : ℚ)
      let lengthRatio :=
        (maxContinuousLength : ℚ) / ((max target.length search.length : Nat) : ℚ)
      continuousRatio * (7/10) + lengthRatio * (3/10)

/-- `calculateChineseWordMatch` (lines 437-479). -/
def calculateChineseWordMatch (target search : Str) : ℚ :=
  if target = [] ∨ search = [] then 0
  else
    let matchCount := (search.filter (fun c => target.contains c)).length
    if matchCount = 0 then 0
    else
      let matchRatio := (matchCount : ℚ) / (search.length : ℚ)
      let consecutiveMatches :=
        ((List.range search.length).filter (fun i =>
          decide (jsIndexOf target (search.getD i 'a') ≠ -1 ∧
            (i = 0 ∨ jsIndexOf target (search.getD (i - 1) 'a') <
              jsIndexOf target (search.getD i 'a'))))).length
      let orderBonus := (consecutiveMatches : ℚ) / (search.length : ℚ)
      matchRatio * (8/10) + orderBonus * (2/10)

/-- `calculateCharSimilarity` (lines 487-497): the all-matches variant of
the character-set Jaccard similarity; the union is built as a set from
the concatenation of the two character sets. -/
def calculateCharSimilarity (str1 str2 : Str) : ℚ :=
  if str1 = [] ∨ str2 = [] then 0
  else
    let chars1 := str1.dedup
    let chars2 := str2.dedup
    let intersection := (chars1.filter (fun c => chars2.contains c)).length
    let union := (chars1 ++ chars2).dedup.length
    if 0 < union then (intersection : ℚ) / (union : ℚ) else 0

/-- `calculateLengthSimilarity` (lines 505-518).  After the falsy guard
both lengths are positive, so the two zero-length branches of the source
are unreachable and omitted. -/
def calculateLengthSimilarity (str1 str2 : Str) : ℚ :=
  if str1 = [] ∨ str2 = [] then 0
  else ((min str1.length str2.length : Nat) : ℚ) /
    ((max str1.length str2.length : Nat) : ℚ)

-- ==================== edit distance ====================

/-- One inner-loop pass of the rolling-array DP: `ys` are the remaining
columns, `above` the remaining entries `prev[j], prev[j+1], ...` of the
previous row, `diag = prev[j-1]` and `left = curr[j-1]`. -/
def levRowAux (c : Char) : List Char → List Nat → Nat → Nat → List Nat
  | [], _, _, _ => []
  | _ :: _, [], _, _ => []
  | y :: ys, above :: rest, diag, left =>
    let v := if c = y then diag else min (diag + 1) (min (left + 1) (above + 1))
    v :: levRowAux c ys rest above v

/-- One full row of the DP: `curr[0] = i`, then the inner loop. -/
def levRow (c : Char) (s2 : List Char) (prev : List Nat) (i : Nat) : List Nat :=
  i :: levRowAux c s2 (prev.drop 1) (prev.headD 0) i

/-- `Math.min(...curr)` (the row is never empty in the source). -/
def minList : List Nat → Nat
  | [] => 0
  | x :: xs => xs.foldl min x

/-- The outer loop of `calculateEditDistanceOptimized`: one row per
remaining character of `str1`, aborting with the sentinel as soon as a
completed row's minimum exceeds `maxDistance`. -/
def edOptLoop (s2 : List Char) (maxDistance : Nat) :
    List Char → List Nat → Nat → Nat
  | [], prev, _ => prev.getLastD 0
  | c :: cs, prev, i =>
    let curr := levRow c s2 prev i
    if maxDistance < minList curr then maxDistance + 1
    else edOptLoop s2 maxDistance cs curr (i + 1)

/-- `calculateEditDistanceOptimized` (lines 527-571). -/
def calculateEditDistanceOptimized (str1 str2 : Str) (maxDistance : Nat) : Nat :=
  if maxDistance < Nat.dist str1.length str2.length then maxDistance + 1
  else edOptLoop str2 maxDistance str1 (List.range (str2.length + 1)) 1

/-- The loop of the unbounded `calculateEditDistance`: rows over `str2`,
columns over `str1`, no early exit. -/
def edLoop (s1 : List Char) : List Char → List Nat → Nat → Nat
  | [], prev, _ => prev.getLastD 0
  | c :: cs, prev, i => edLoop s1 cs (levRow c s1 prev i) (i + 1)

/-- `calculateEditDistance` (lines 579-605). -/
def calculateEditDistance (str1 str2 : Str) : Nat :=
  edLoop str1 str2 (List.range (str1.length + 1)) 1

-- ==================== best-single-match aggregator ====================

/-- Steps 2-8 of the per-candidate scoring of `smartFuzzySearch` (lines
162-267): the running maximum over the non-edit-distance heuristics. -/
def baseMaxScore (wc : WeightConfig) (term : Str) (searchWords : List Str)
    (nfv : Str) : ℚ :=
  let fieldWords := splitWords nfv
  let m1 := if jsStartsWith nfv term || jsStartsWith term nfv then
      max 0 wc.prefixMatch else 0
  let m2 := if jsIncludes nfv term || jsIncludes term nfv then
      max m1 wc.containsMatch else m1
  let substringScore := calculateSubstringMatch nfv term
  let m3 := if 0 < substringScore then
      max m2 (substringScore * wc.substringMatch) else m2
  let commonPrefixScore := calculateCommonPrefix nfv term
  let m4 := if 0 < commonPrefixScore then
      max m3 (commonPrefixScore * wc.commonPrefix) else m3
  let m5 := if 0 < searchWords.length then
      let searchWordMatches := (searchWords.filter (fun sw =>
        fieldWords.any (fun fw => jsIncludes fw sw || jsIncludes sw fw))).length
      if 0 < searchWordMatches then
        max m4 (((searchWordMatches : ℚ) / (searchWords.length : ℚ)) *
          wc.wordBoundary)
      else m4
    else m4
  let charSimilarity := calculateCharSimilarityOptimized nfv term
  let m6 := max m5 (charSimilarity * wc.charSimilarity)
  let continuousMatchScore := calculateContinuousMatch nfv term
  let m7 := if 0 < continuousMatchScore then
      max m6 (continuousMatchScore * wc.charSimilarity * (12/10)) else m6
  let chineseWordMatchScore := calculateChineseWordMatch nfv term
  let m8 := if 0 < chineseWordMatchScore then
      max m7 (chineseWordMatchScore * wc.charSimilarity * (15/10)) else m7
  let lengthSimilarity := calculateLengthSimilarity nfv term
  max m8 (lengthSimilarity * wc.lengthSimilarity)

/-- Per-candidate scoring of `smartFuzzySearch` (lines 102-309), as a
function of the raw field value (the cache only memoizes the pure
`calculateCharSimilarityOptimized` under an injective key, so it is
semantically inert and not modelled). -/
def scoreItem (wc : WeightConfig) (minScore : ℚ) (caseSensitive : Bool)
    (maxEditDistance : Nat) (term : Str) (searchWords : List Str)
    (fieldValue : Str) : ℚ × MatchDetails :=
  if fieldValue = [] then (0, emptyDetails)
  else
    let nfv := normalizeStr caseSensitive fieldValue
    if maxEditDistance * 2 < Nat.dist nfv.length term.length then
      (0, emptyDetails)
    else if nfv = term then (wc.exactMatch, ⟨true, true, true, 1, 1, 1, none⟩)
    else
      let m := baseMaxScore wc term searchWords nfv
      let charSimilarity := calculateCharSimilarityOptimized nfv term
      let lengthSimilarity := calculateLengthSimilarity nfv term
      let st : ℚ × ℚ × Nat × Nat :=
        if m < minScore then
          let editDistance := calculateEditDistanceOptimized nfv term maxEditDistance
          if editDistance ≤ maxEditDistance then
            let maxLength := max nfv.length term.length
            let editSimilarity : ℚ := if 0 < maxLength then
                ((maxLength : ℚ) - (editDistance : ℚ)) / (maxLength : ℚ) else 0
            let editScore := editSimilarity * wc.charSimilarity * (1/2)
            (max m editScore, editScore, editDistance, maxLength)
          else (m, 0, editDistance, 0)
        else (m, 0, 0, 0)
      (st.1,
        { exactMatch := decide (nfv = term)
        , prefixMatch := jsStartsWith nfv term || jsStartsWith term nfv
        , containsMatch := jsIncludes nfv term || jsIncludes term nfv
        , charSimilarity := charSimilarity
        , lengthSimilarity := lengthSimilarity
        , editSimilarity := if 0 < st.2.1 then
            ((st.2.2.2 : ℚ) - (st.2.2.1 : ℚ)) / (st.2.2.2 : ℚ) else 0
        , wordMatches := none })

/-- `smartFuzzySearch` (lines 64-319). -/
def smartFuzzySearch {α : Type} (list : Option (List α))
    (fld : Option (α → Str)) (searchTerm : Str) (options : SearchOptions) :
    Option α :=
  match list, fld with
  | some l, some f =>
    if searchTerm = [] then none
    else
      let minScore := options.minScore.getD (3/10)
      let caseSensitive := options.caseSensitive.getD false
      let wc := mergeWeights options.weightConfig
      let maxEditDistance := options.maxEditDistance.getD 10
      let term := normalizeStr caseSensitive searchTerm
      let searchWords := splitWords term
      if term.length < 2 then none
      else
        let scoredItems := l.map (fun a =>
          let r := scoreItem wc minScore caseSensitive maxEditDistance term
            searchWords (f a)
          SearchResult.mk a r.1 r.2)
        let filteredItems := scoredItems.filter (fun r => minScore ≤ r.score)
        let sorted := filteredItems.mergeSort (fun a b => decide (b.score ≤ a.score))
        sorted.head?.map SearchResult.item
  | _, _ => none

-- ==================== all-matches aggregator ====================

/-- Per-candidate scoring of `smartFuzzySearchAll` (lines 640-756).  Each
heuristic adds into `totalScore` and is folded into the running maximum;
the emitted score is the maximum. -/
def scoreItemAll (wc : WeightConfig) (caseSensitive : Bool) (term : Str)
    (searchWords : List Str) (fieldValue : Str) : ℚ × MatchDetails :=
  if fieldValue = [] then
    (0, { emptyDetails with wordMatches := some 0 })
  else
    let nfv := normalizeStr caseSensitive fieldValue
    let fieldWords := splitWords nfv
    let t1 : ℚ := if nfv = term then 0 + wc.exactMatch else 0
    let m1 : ℚ := if nfv = term then max 0 wc.exactMatch else 0
    let t2 := if jsStartsWith nfv term || jsStartsWith term nfv then
        t1 + wc.prefixMatch else t1
    let m2 := if jsStartsWith nfv term || jsStartsWith term nfv then
        max m1 wc.prefixMatch else m1
    let t3 := if jsIncludes nfv term || jsIncludes term nfv then
        t2 + wc.containsMatch else t2
    let m3 := if jsIncludes nfv term || jsIncludes term nfv then
        max m2 wc.containsMatch else m2
    let searchWordMatches := (searchWords.filter (fun sw =>
      fieldWords.any (fun fw => jsIncludes fw sw || jsIncludes sw fw))).length
    let wordMatchScore := ((searchWordMatches : ℚ) / (searchWords.length : ℚ)) *
      wc.wordBoundary
    let t4 := if 0 < searchWordMatches then t3 + wordMatchScore else t3
    let m4 := if 0 < searchWordMatches then max m3 wordMatchScore else m3
    let charSimilarity := calculateCharSimilarity nfv term
    let charScore := charSimilarity * wc.charSimilarity
    let t5 := t4 + charScore
    let m5 := max m4 charScore
    let lengthSimilarity := calculateLengthSimilarity nfv term
    let lengthScore := lengthSimilarity * wc.lengthSimilarity
    let t6 := t5 + lengthScore
    let m6 := max m5 lengthScore
    let editDistance := calculateEditDistance nfv term
    let maxLength := max nfv.length term.length
    let editSimilarity : ℚ := if 0 < maxLength then
        ((maxLength : ℚ) - (editDistance : ℚ)) / (maxLength : ℚ) else 0
    let editScore := editSimilarity * wc.charSimilarity * (1/2)
    let totalScore := t6 + editScore
    let m7 := max m6 editScore
    (m7,
      { exactMatch := decide (nfv = term)
      , prefixMatch := jsStartsWith nfv term || jsStartsWith term nfv
      , containsMatch := jsIncludes nfv term || jsIncludes term nfv
      , charSimilarity := charSimilarity
      , lengthSimilarity := lengthSimilarity
      , editSimilarity := editSimilarity
      , wordMatches := some searchWordMatches })

/-- `smartFuzzySearchAll` (lines 615-763). -/
def smartFuzzySearchAll {α : Type} (list : Option (List α))
    (fld : Option (α → Str)) (searchTerm : Str) (options : AllSearchOptions) :
    List α :=
  match list, fld with
  | some l, some f =>
    if searchTerm = [] then []
    else
      let minScore := options.minScore.getD (3/10)
      let caseSensitive := options.caseSensitive.getD false
      let wc := mergeWeights options.weightConfig
      let term := normalizeStr caseSensitive searchTerm
      let searchWords := splitWords term
      let scoredItems := l.map (fun a =>
        let r := scoreItemAll wc caseSensitive term searchWords (f a)
        SearchResult.mk a r.1 r.2)
      ((scoredItems.filter (fun r => minScore ≤ r.score)).mergeSort
        (fun a b => decide (b.score ≤ a.score))).map SearchResult.item
  | _, _ => []

-- ==================== edit-distance correctness ====================

theorem lev_nil (ys : List Char) : lev [] ys = ys.length := by simp [lev]

theorem lev_nil_right (xs : List Char) : lev xs [] = xs.length := by
  cases xs <;> simp [lev]

theorem lev_cons_cons (x y : Char) (xs ys : List Char) :
    lev (x :: xs) (y :: ys) =
      if x = y then lev xs ys
      else 1 + min (lev xs (y :: ys)) (min (lev (x :: xs) ys) (lev xs ys)) := by
  simp [lev]

theorem lev_cons_self (y : Char) (xs ys : List Char) :
    lev (y :: xs) (y :: ys) = lev xs ys := by
  rw [lev_cons_cons, if_pos rfl]

theorem lev_cons_ne {x y : Char} (h : ¬x = y) (xs ys : List Char) :
    lev (x :: xs) (y :: ys) =
      1 + min (lev xs (y :: ys)) (min (lev (x :: xs) ys) (lev xs ys)) := by
  rw [lev_cons_cons, if_neg h]

theorem dist_le_lev (xs ys : List Char) :
    Nat.dist xs.length ys.length ≤ lev xs ys := by
  induction xs, ys using lev.induct with
  | case1 ys => simp [lev_nil, Nat.dist]
  | case2 x xs => simp [lev_nil_right, Nat.dist]
  | case3 xs y ys ih => simp [lev_cons_self, Nat.dist] at *; omega
  | case4 x xs y ys h ih1 ih2 ih3 =>
    rw [lev_cons_ne h]
    simp [Nat.dist] at *
    omega

theorem lev_le_max (xs ys : List Char) :
    lev xs ys ≤ max xs.length ys.length := by
  induction xs, ys using lev.induct with
  | case1 ys => simp [lev_nil]
  | case2 x xs => simp [lev_nil_right]
  | case3 xs y ys ih => simp [lev_cons_self] at *; omega
  | case4 x xs y ys h ih1 ih2 ih3 =>
    rw [lev_cons_ne h]
    simp at *
    omega

theorem lev_comm (xs ys : List Char) : lev xs ys = lev ys xs := by
  induction xs, ys using lev.induct with
  | case1 ys => simp [lev_nil, lev_nil_right]
  | case2 x xs => simp [lev_nil, lev_nil_right]
  | case3 xs y ys ih => rw [lev_cons_self, lev_cons_self, ih]
  | case4 x xs y ys h ih1 ih2 ih3 =>
    rw [lev_cons_ne h, lev_cons_ne (fun hh => h hh.symm), ih1, ih2, ih3]
    omega

theorem lev_single_snoc (x y : Char) : ∀ ys : List Char,
    lev [x] (ys ++ [y]) =
      if x = y then ys.length else 1 + min (lev [x] ys) ys.length := by
  intro ys
  induction ys with
  | nil =>
    simp only [List.nil_append]
    by_cases h : x = y
    · rw [if_pos h, h, lev_cons_self, lev_nil]
    · rw [if_neg h, lev_cons_ne h, lev_nil, lev_nil, lev_nil_right]
      simp
  | cons b bs ih =>
    simp only [List.cons_append]
    by_cases hxb : x = b
    · subst hxb
      rw [lev_cons_self, lev_cons_self, lev_nil, lev_nil]
      split_ifs with hxy
      · simp
      · simp only [List.length_append, List.length_cons, List.length_nil]
        omega
    · rw [lev_cons_ne hxb, lev_cons_ne hxb, ih]
      simp only [lev_nil]
      split_ifs with hxy
      · simp only [List.length_append, List.length_cons, List.length_nil]
        omega
      · simp only [List.length_append, List.length_cons, List.length_nil]
        omega

theorem lev_snoc_single (x y : Char) (xs : List Char) :
    lev (xs ++ [x]) [y] =
      if x = y then xs.length else 1 + min (lev xs [y]) xs.length := by
  rw [lev_comm, lev_single_snoc y x xs, lev_comm [y] xs]
  by_cases h : x = y
  · rw [if_pos h, if_pos h.symm]
  · rw [if_neg h, if_neg (fun hh => h hh.symm)]

set_option maxHeartbeats 1000000 in
theorem lev_snoc (x y : Char) : ∀ xs ys : List Char,
    lev (xs ++ [x]) (ys ++ [y]) =
      if x = y then lev xs ys
      else 1 + min (lev xs (ys ++ [y]))
        (min (lev (xs ++ [x]) ys) (lev xs ys)) := by
  intro xs ys
  induction xs, ys using lev.induct with
  | case1 ys =>
    simp only [List.nil_append]
    rw [lev_single_snoc]
    simp only [lev_nil]
    split_ifs with h
    · rfl
    · simp only [List.length_append, List.length_cons, List.length_nil]
      omega
  | case2 c cs =>
    simp only [List.nil_append]
    rw [lev_snoc_single]
    simp only [lev_nil_right]
    split_ifs with h
    · rfl
    · simp only [List.length_append, List.length_cons]
      omega
  | case3 xs c ys ih =>
    simp only [List.cons_append]
    rw [lev_cons_self c (xs ++ [x]) (ys ++ [y]), lev_cons_self c xs (ys ++ [y]),
      lev_cons_self c (xs ++ [x]) ys, lev_cons_self c xs ys]
    exact ih
  | case4 c cs d ds h ih1 ih2 ih3 =>
    simp only [List.cons_append] at *
    simp only [lev_cons_ne h]
    rw [ih1, ih2, ih3]
    split_ifs with h1
    · rfl
    · generalize lev cs (d :: (ds ++ [y])) = A1
      generalize lev (cs ++ [x]) (d :: ds) = A2
      generalize lev cs (d :: ds) = A3
      generalize lev (c :: cs) (ds ++ [y]) = A4
      generalize lev (c :: (cs ++ [x])) ds = A5
      generalize lev (c :: cs) ds = A6
      generalize lev cs (ds ++ [y]) = A7
      generalize lev (cs ++ [x]) ds = A8
      generalize lev cs ds = A9
      clear ih1 ih2 ih3
      simp only [Nat.add_min_add_left]
      ac_rfl

theorem lev_reverse (xs ys : List Char) :
    lev xs.reverse ys.reverse = lev xs ys := by
  induction xs, ys using lev.induct with
  | case1 ys => simp [lev_nil]
  | case2 c cs => simp [lev_nil_right]
  | case3 xs c ys ih =>
    rw [List.reverse_cons, List.reverse_cons, lev_snoc, if_pos rfl, lev_cons_self]
    exact ih
  | case4 c cs d ds h ih1 ih2 ih3 =>
    simp only [List.reverse_cons]
    rw [lev_snoc, if_neg h, lev_cons_ne h]
    rw [← List.reverse_cons d ds, ← List.reverse_cons c cs, ih1, ih2, ih3]

/-- Reference contents of a DP row: starting from context `rt` (the
reversed processed prefix of the column string), the entries for the
remaining columns `ys`. -/
def specRow (acc : List Char) : List Char → List Char → List Nat
  | _, [] => []
  | rt, y :: ys => lev acc (y :: rt) :: specRow acc (y :: rt) ys

/-- A full DP row for row-string prefix `acc` (stored reversed) against
all prefixes of the column string `s2`. -/
def fullRow (acc s2 : List Char) : List Nat :=
  lev acc [] :: specRow acc [] s2

theorem levRowAux_spec (c : Char) (acc : List Char) :
    ∀ (ys rt : List Char),
      levRowAux c ys (specRow acc rt ys) (lev acc rt) (lev (c :: acc) rt) =
        specRow (c :: acc) rt ys := by
  intro ys
  induction ys with
  | nil => intro rt; rfl
  | cons y ys ih =>
    intro rt
    simp only [specRow, levRowAux]
    have hv : (if c = y then lev acc rt
        else min (lev acc rt + 1)
          (min (lev (c :: acc) rt + 1) (lev acc (y :: rt) + 1))) =
        lev (c :: acc) (y :: rt) := by
      rw [lev_cons_cons]
      by_cases hcy : c = y
      · rw [if_pos hcy, if_pos hcy]
      · rw [if_neg hcy, if_neg hcy]
        omega
    rw [hv, ih (y :: rt)]

theorem levRow_spec (c : Char) (acc s2 : List Char) :
    levRow c s2 (fullRow acc s2) (acc.length + 1) = fullRow (c :: acc) s2 := by
  have h1 : lev (c :: acc) [] = acc.length + 1 := by
    rw [lev_nil_right]; rfl
  simp only [levRow, fullRow, List.drop_succ_cons, List.drop_zero, List.headD_cons]
  rw [← h1, levRowAux_spec]

theorem specRow_nil_acc : ∀ (ys rt : List Char),
    specRow [] rt ys = (List.range ys.length).map (fun k => rt.length + 1 + k) := by
  intro ys
  induction ys with
  | nil => intro rt; simp [specRow]
  | cons y ys ih =>
    intro rt
    simp only [specRow, lev_nil, List.length_cons, List.range_succ_eq_map,
      List.map_cons, List.map_map, ih (y :: rt)]
    congr 1
    exact List.map_congr_left fun a _ => by simp [Function.comp]; omega

theorem fullRow_nil (s2 : List Char) :
    fullRow [] s2 = List.range (s2.length + 1) := by
  rw [fullRow, specRow_nil_acc, List.range_succ_eq_map]
  simp only [lev_nil, List.length_nil]
  congr 1
  exact List.map_congr_left fun a _ => by omega

theorem specRow_getLastD (acc : List Char) : ∀ (ys rt : List Char),
    (specRow acc rt ys).getLastD (lev acc rt) = lev acc (ys.reverse ++ rt) := by
  intro ys
  induction ys with
  | nil => intro rt; simp [specRow]
  | cons y ys ih =>
    intro rt
    simp only [specRow, List.getLastD_cons, ih (y :: rt), List.reverse_cons,
      List.append_assoc, List.cons_append, List.nil_append]

theorem fullRow_getLastD (acc s2 : List Char) :
    (fullRow acc s2).getLastD 0 = lev acc s2.reverse := by
  rw [fullRow, List.getLastD_cons, specRow_getLastD]
  simp

theorem specRow_mem (acc : List Char) : ∀ (ys rt : List Char) (m : Nat),
    m ≤ ys.length →
      lev acc ((ys.take m).reverse ++ rt) ∈ lev acc rt :: specRow acc rt ys := by
  intro ys
  induction ys with
  | nil =>
    intro rt m hm
    simp only [List.length_nil, Nat.le_zero] at hm
    subst hm
    simp [specRow]
  | cons y ys ih =>
    intro rt m hm
    match m with
    | 0 => simp
    | m + 1 =>
      simp only [List.take_succ_cons, List.reverse_cons, List.append_assoc,
        List.cons_append, List.nil_append, specRow]
      have := ih (y :: rt) m (by simpa using hm)
      simp only [List.mem_cons] at this ⊢
      tauto
theorem foldl_min_le_init : ∀ (l : List Nat) (a : Nat), l.foldl min a ≤ a := by
  intro l
  induction l with
  | nil => intro a; exact Nat.le_refl a
  | cons b l ih =>
    intro a
    calc (b :: l).foldl min a = l.foldl min (min a b) := rfl
    _ ≤ min a b := ih (min a b)
    _ ≤ a := Nat.min_le_left a b

theorem foldl_min_le_mem : ∀ (l : List Nat) (a x : Nat), x ∈ l → l.foldl min a ≤ x := by
  intro l
  induction l with
  | nil => intro a x hx; cases hx
  | cons b l ih =>
    intro a x hx
    rcases List.mem_cons.mp hx with h | h
    · subst h
      calc (x :: l).foldl min a = l.foldl min (min a x) := rfl
      _ ≤ min a x := foldl_min_le_init l (min a x)
      _ ≤ x := Nat.min_le_right a x
    · exact ih (min a b) x h

theorem minList_le {l : List Nat} {x : Nat} (hx : x ∈ l) : minList l ≤ x := by
  match l, hx with
  | b :: l, hx =>
    rcases List.mem_cons.mp hx with h | h
    · subst h
      exact foldl_min_le_init l x
    · exact foldl_min_le_mem l b x h

/-- The core early-termination bound: the distance from `acc` to some
suffix of `z` is a lower bound for the distance from any left extension
of `acc` to all of `z`. -/
theorem lev_suffix_le_aux : ∀ (n : Nat) (w z acc : List Char),
    w.length + z.length ≤ n →
      ∃ t, t <:+ z ∧ lev acc t ≤ lev (w ++ acc) z := by
  intro n
  induction n with
  | zero =>
    intro w z acc h
    match w, z with
    | [], [] => exact ⟨[], List.suffix_refl [], Nat.le_refl _⟩
    | [], _ :: _ => simp at h
    | _ :: _, _ => simp at h
  | succ n ih =>
    intro w z acc h
    match w, z with
    | [], z => exact ⟨z, List.suffix_refl z, Nat.le_refl _⟩
    | a :: w', [] =>
      refine ⟨[], List.suffix_refl [], ?_⟩
      rw [lev_nil_right, lev_nil_right]
      simp only [List.length_append, List.length_cons]
      omega
    | a :: w', b :: z' =>
      simp only [List.length_cons] at h
      rw [List.cons_append, lev_cons_cons]
      by_cases hab : a = b
      · rw [if_pos hab]
        obtain ⟨t, ht, hle⟩ := ih w' z' acc (by omega)
        exact ⟨t, ht.trans (List.suffix_cons b z'), hle⟩
      · rw [if_neg hab]
        obtain ⟨t1, hs1, hb1⟩ := ih w' (b :: z') acc (by simp; omega)
        obtain ⟨t2, hs2, hb2⟩ := ih (a :: w') z' acc (by simp; omega)
        obtain ⟨t3, hs3, hb3⟩ := ih w' z' acc (by omega)
        rw [List.cons_append] at hb2
        by_cases h1 : lev (w' ++ acc) (b :: z') ≤
            min (lev (a :: (w' ++ acc)) z') (lev (w' ++ acc) z')
        · exact ⟨t1, hs1, by omega⟩
        · by_cases h2 : lev (a :: (w' ++ acc)) z' ≤ lev (w' ++ acc) z'
          · exact ⟨t2, hs2.trans (List.suffix_cons b z'), by omega⟩
          · exact ⟨t3, hs3.trans (List.suffix_cons b z'), by omega⟩

theorem lev_suffix_le (w z acc : List Char) :
    ∃ t, t <:+ z ∧ lev acc t ≤ lev (w ++ acc) z :=
  lev_suffix_le_aux (w.length + z.length) w z acc (Nat.le_refl _)

/-- Every suffix of `s2.reverse` is the reverse of a prefix of `s2`, so
its distance from `acc` appears in the DP row for `acc`. -/
theorem mem_fullRow_of_suffix {t s2 : List Char} (acc : List Char)
    (h : t <:+ s2.reverse) : lev acc t ∈ fullRow acc s2 := by
  have h2 : t.reverse <+: s2 := by
    rw [← List.reverse_reverse s2]
    exact List.reverse_prefix.mpr (by simpa using h)
  have h3 : t.reverse = s2.take t.reverse.length :=
    List.prefix_iff_eq_take.mp h2
  have h4 : t = (s2.take t.reverse.length).reverse := by
    rw [← h3, List.reverse_reverse]
  have h5 : t.reverse.length ≤ s2.length := by
    simpa using h2.length_le
  have h6 := specRow_mem acc s2 [] t.reverse.length h5
  rw [List.append_nil] at h6
  rw [h4]
  exact h6

theorem minList_fullRow_le (acc s2 w : List Char) :
    minList (fullRow acc s2) ≤ lev (w ++ acc) s2.reverse := by
  obtain ⟨t, ht, hle⟩ := lev_suffix_le w s2.reverse acc
  exact (minList_le (mem_fullRow_of_suffix acc ht)).trans hle

theorem edLoop_spec (s1 : List Char) : ∀ (cs acc : List Char),
    edLoop s1 cs (fullRow acc s1) (acc.length + 1) =
      lev (cs.reverse ++ acc) s1.reverse := by
  intro cs
  induction cs with
  | nil =>
    intro acc
    simp only [edLoop, List.reverse_nil, List.nil_append]
    exact fullRow_getLastD acc s1
  | cons c cs ih =>
    intro acc
    simp only [edLoop, levRow_spec]
    have := ih (c :: acc)
    simp only [List.length_cons] at this
    rw [this]
    simp [List.append_assoc]

theorem calculateEditDistance_eq_lev (str1 str2 : Str) :
    calculateEditDistance str1 str2 = lev str1 str2 := by
  rw [calculateEditDistance, ← fullRow_nil str1,
    show (1 : Nat) = ([] : List Char).length + 1 from rfl, edLoop_spec]
  rw [List.append_nil, lev_comm, lev_reverse]

theorem edOptLoop_spec (s2 : List Char) (maxD : Nat) : ∀ (cs acc : List Char),
    edOptLoop s2 maxD cs (fullRow acc s2) (acc.length + 1) =
        lev (cs.reverse ++ acc) s2.reverse ∨
      (edOptLoop s2 maxD cs (fullRow acc s2) (acc.length + 1) = maxD + 1 ∧
        maxD < lev (cs.reverse ++ acc) s2.reverse) := by
  intro cs
  induction cs with
  | nil =>
    intro acc
    left
    simp only [edOptLoop, List.reverse_nil, List.nil_append]
    exact fullRow_getLastD acc s2
  | cons c cs ih =>
    intro acc
    simp only [edOptLoop, levRow_spec]
    have hrw : (c :: cs).reverse ++ acc = cs.reverse ++ (c :: acc) := by
      simp [List.append_assoc]
    by_cases hexit : maxD < minList (fullRow (c :: acc) s2)
    · right
      rw [if_pos hexit]
      refine ⟨rfl, ?_⟩
      rw [hrw]
      exact Nat.lt_of_lt_of_le hexit (minList_fullRow_le (c :: acc) s2 cs.reverse)
    · rw [if_neg hexit]
      have := ih (c :: acc)
      simp only [List.length_cons] at this
      rw [hrw]
      exact this

/-- Dichotomy for the bounded engine: it returns either the true
Levenshtein distance, or the sentinel `maxDistance + 1`, the latter only
when the true distance exceeds `maxDistance`. -/
theorem calculateEditDistanceOptimized_spec (str1 str2 : Str) (maxD : Nat) :
    calculateEditDistanceOptimized str1 str2 maxD = lev str1 str2 ∨
      (calculateEditDistanceOptimized str1 str2 maxD = maxD + 1 ∧
        maxD < lev str1 str2) := by
  rw [calculateEditDistanceOptimized]
  by_cases hlen : maxD < Nat.dist str1.length str2.length
  · right
    rw [if_pos hlen]
    exact ⟨rfl, Nat.lt_of_lt_of_le hlen (dist_le_lev str1 str2)⟩
  · rw [if_neg hlen, ← fullRow_nil str2,
      show (1 : Nat) = ([] : List Char).length + 1 from rfl]
    have := edOptLoop_spec str2 maxD str1 []
    rw [List.append_nil, lev_reverse] at this
    exact this

-- ==================== scorer bounds ====================

theorem ratio_nonneg (a b : Nat) : 0 ≤ (a : ℚ) / (b : ℚ) :=
  div_nonneg (Nat.cast_nonneg a) (Nat.cast_nonneg b)

theorem ratio_le_one {a b : Nat} (h : a ≤ b) : (a : ℚ) / (b : ℚ) ≤ 1 := by
  rcases Nat.eq_zero_or_pos b with hb | hb
  · subst hb
    simp at h
    subst h
    simp
  · rw [div_le_one (by exact_mod_cast hb)]
    exact_mod_cast h

theorem jsIncludes_length : ∀ s sub : Str, jsIncludes s sub = true →
    sub.length ≤ s.length := by
  intro s
  induction s with
  | nil =>
    intro sub h
    simp only [jsIncludes, List.isEmpty_iff] at h
    subst h
    simp
  | cons c t ih =>
    intro sub h
    simp only [jsIncludes, Bool.or_eq_true] at h
    rcases h with h | h
    · exact (List.isPrefixOf_iff_prefix.mp h).length_le
    · exact (ih sub h).trans (by simp)

theorem commonPrefixLen_le_left : ∀ xs ys : Str, commonPrefixLen xs ys ≤ xs.length := by
  intro xs
  induction xs with
  | nil => intro ys; cases ys <;> simp [commonPrefixLen]
  | cons x xs ih =>
    intro ys
    cases ys with
    | nil => simp [commonPrefixLen]
    | cons y ys =>
      simp only [commonPrefixLen]
      split_ifs
      · simpa using ih ys
      · simp

theorem commonPrefixLen_le_right : ∀ xs ys : Str, commonPrefixLen xs ys ≤ ys.length := by
  intro xs
  induction xs with
  | nil => intro ys; cases ys <;> simp [commonPrefixLen]
  | cons x xs ih =>
    intro ys
    cases ys with
    | nil => simp [commonPrefixLen]
    | cons y ys =>
      simp only [commonPrefixLen]
      split_ifs
      · simpa using ih ys
      · simp

theorem foldr_max_le {b : Nat} : ∀ l : List Nat, (∀ x ∈ l, x ≤ b) → l.foldr max 0 ≤ b := by
  intro l
  induction l with
  | nil => intro _; simp
  | cons x l ih =>
    intro h
    simp only [List.foldr_cons]
    exact max_le (h x (by simp)) (ih fun y hy => h y (by simp [hy]))

theorem calculateSubstringMatch_bounds (target search : Str) :
    0 ≤ calculateSubstringMatch target search ∧
      calculateSubstringMatch target search ≤ 1 := by
  rw [calculateSubstringMatch]
  split_ifs with h1 h2 h3
  · exact ⟨le_refl 0, by norm_num⟩
  · exact ⟨ratio_nonneg _ _, ratio_le_one (jsIncludes_length _ _ h2)⟩
  · exact ⟨ratio_nonneg _ _, ratio_le_one (jsIncludes_length _ _ h3)⟩
  · exact ⟨le_refl 0, by norm_num⟩

theorem calculateCommonPrefix_bounds (str1 str2 : Str) :
    0 ≤ calculateCommonPrefix str1 str2 ∧ calculateCommonPrefix str1 str2 ≤ 1 := by
  simp only [calculateCommonPrefix]
  split_ifs with h1 h2
  · exact ⟨le_refl 0, by norm_num⟩
  · exact ⟨le_refl 0, by norm_num⟩
  · refine ⟨ratio_nonneg _ _, ratio_le_one ?_⟩
    exact (commonPrefixLen_le_left str1 str2).trans (le_max_left _ _)

theorem calculateContinuousMatch_bounds (target search : Str) :
    0 ≤ calculateContinuousMatch target search ∧
      calculateContinuousMatch target search ≤ 1 := by
  simp only [calculateContinuousMatch]
  split_ifs with h1 h2
  · exact ⟨le_refl 0, by norm_num⟩
  · exact ⟨le_refl 0, by norm_num⟩
  · set mc := ((List.range (target.length + 1 - search.length)).map
      (fun i => commonPrefixLen (target.drop i) search)).foldr max 0 with hmc
    have hle : mc ≤ search.length := by
      refine foldr_max_le _ fun x hx => ?_
      simp only [List.mem_map] at hx
      obtain ⟨i, _, rfl⟩ := hx
      exact commonPrefixLen_le_right _ _
    have h3 : (mc : ℚ) / (search.length : ℚ) ≤ 1 := ratio_le_one hle
    have h4 : (mc : ℚ) / ((max target.length search.length : Nat) : ℚ) ≤ 1 :=
      ratio_le_one (hle.trans (le_max_right _ _))
    have h5 : 0 ≤ (mc : ℚ) / (search.length : ℚ) := ratio_nonneg _ _
    have h6 : 0 ≤ (mc : ℚ) / ((max target.length search.length : Nat) : ℚ) :=
      ratio_nonneg _ _
    constructor
    · positivity
    · linarith

theorem calculateChineseWordMatch_bounds (target search : Str) :
    0 ≤ calculateChineseWordMatch target search ∧
      calculateChineseWordMatch target search ≤ 1 := by
  simp only [calculateChineseWordMatch]
  split_ifs with h1 h2
  · exact ⟨le_refl 0, by norm_num⟩
  · exact ⟨le_refl 0, by norm_num⟩
  · have hm : (search.filter (fun c => target.contains c)).length ≤ search.length :=
      List.length_filter_le _ _
    have hc : ((List.range search.length).filter (fun i =>
        decide (jsIndexOf target (search.getD i 'a') ≠ -1 ∧
          (i = 0 ∨ jsIndexOf target (search.getD (i - 1) 'a') <
            jsIndexOf target (search.getD i 'a'))))).length ≤ search.length := by
      have := List.length_filter_le (fun i =>
        decide (jsIndexOf target (search.getD i 'a') ≠ -1 ∧
          (i = 0 ∨ jsIndexOf target (search.getD (i - 1) 'a') <
            jsIndexOf target (search.getD i 'a')))) (List.range search.length)
      simpa using this
    have h3 := ratio_le_one (a := (search.filter (fun c => target.contains c)).length) hm
    have h4 := ratio_le_one hc
    have h5 := ratio_nonneg (search.filter (fun c => target.contains c)).length search.length
    have h6 := ratio_nonneg ((List.range search.length).filter (fun i =>
        decide (jsIndexOf target (search.getD i 'a') ≠ -1 ∧
          (i = 0 ∨ jsIndexOf target (search.getD (i - 1) 'a') <
            jsIndexOf target (search.getD i 'a'))))).length search.length
    constructor
    · positivity
    · linarith

theorem calculateLengthSimilarity_bounds (str1 str2 : Str) :
    0 ≤ calculateLengthSimilarity str1 str2 ∧
      calculateLengthSimilarity str1 str2 ≤ 1 := by
  rw [calculateLengthSimilarity]
  split_ifs with h1
  · exact ⟨le_refl 0, by norm_num⟩
  · exact ⟨ratio_nonneg _ _, ratio_le_one (min_le_max)⟩

theorem charSim_inter_le_right (s1 s2 : Str) :
    (s1.dedup.filter (fun c => s2.dedup.contains c)).length ≤ s2.dedup.length := by
  refine List.Subperm.length_le (List.subperm_of_subset ?_ ?_)
  · exact (List.nodup_dedup s1).filter _
  · intro c hc
    simp only [List.mem_filter] at hc
    simpa using hc.2

theorem calculateCharSimilarityOptimized_bounds (str1 str2 : Str) :
    0 ≤ calculateCharSimilarityOptimized str1 str2 ∧
      calculateCharSimilarityOptimized str1 str2 ≤ 1 := by
  simp only [calculateCharSimilarityOptimized]
  split_ifs with h1 h2 h3
  · exact ⟨le_refl 0, by norm_num⟩
  · exact ⟨by norm_num, le_refl 1⟩
  · refine ⟨ratio_nonneg _ _, ratio_le_one ?_⟩
    have ha := List.length_filter_le (fun c => str2.dedup.contains c) str1.dedup
    have hb := charSim_inter_le_right str1 str2
    omega
  · exact ⟨le_refl 0, by norm_num⟩

theorem charSim_inter_le_union (s1 s2 : Str) :
    (s1.dedup.filter (fun c => s2.dedup.contains c)).length ≤
      (s1.dedup ++ s2.dedup).dedup.length := by
  refine List.Subperm.length_le (List.subperm_of_subset ?_ ?_)
  · exact (List.nodup_dedup s1).filter _
  · intro c hc
    simp only [List.mem_filter] at hc
    simp only [List.mem_dedup, List.mem_append]
    exact Or.inl (List.mem_dedup.mp hc.1)

theorem calculateCharSimilarity_bounds (str1 str2 : Str) :
    0 ≤ calculateCharSimilarity str1 str2 ∧ calculateCharSimilarity str1 str2 ≤ 1 := by
  simp only [calculateCharSimilarity]
  split_ifs with h1 h2
  · exact ⟨le_refl 0, by norm_num⟩
  · exact ⟨ratio_nonneg _ _, ratio_le_one (charSim_inter_le_union str1 str2)⟩
  · exact ⟨le_refl 0, by norm_num⟩
theorem dedup_toFinset (l : Str) : l.dedup.toFinset = l.toFinset := by
  ext c
  simp [List.mem_dedup]

theorem charSim_inter_card (str1 str2 : Str) :
    (str1.dedup.filter (fun c => str2.dedup.contains c)).length =
      (str1.toFinset ∩ str2.toFinset).card := by
  have hnd : (str1.dedup.filter (fun c => str2.dedup.contains c)).Nodup :=
    (List.nodup_dedup str1).filter _
  rw [← List.toFinset_card_of_nodup hnd]
  congr 1
  ext c
  simp only [List.mem_toFinset, List.mem_filter, List.mem_dedup, Finset.mem_inter,
    List.elem_eq_mem, decide_eq_true_eq]

theorem charSim_union_card (str1 str2 : Str) :
    (str1.dedup ++ str2.dedup).dedup.length =
      (str1.toFinset ∪ str2.toFinset).card := by
  rw [← List.card_toFinset]
  congr 1
  ext c
  simp [List.mem_dedup]

theorem charSim_union_eq (str1 str2 : Str) :
    str1.dedup.length + str2.dedup.length -
        (str1.dedup.filter (fun c => str2.dedup.contains c)).length =
      (str1.dedup ++ str2.dedup).dedup.length := by
  have h1 : str1.dedup.length = str1.toFinset.card := (List.card_toFinset (l := str1)).symm
  have h2 : str2.dedup.length = str2.toFinset.card := (List.card_toFinset (l := str2)).symm
  have h3 := charSim_inter_card str1 str2
  have h4 := charSim_union_card str1 str2
  have h5 := Finset.card_union_add_card_inter str1.toFinset str2.toFinset
  have h6 : (str1.toFinset ∩ str2.toFinset).card ≤ str1.toFinset.card :=
    Finset.card_le_card Finset.inter_subset_left
  omega

/-- The two character-similarity implementations agree on every input. -/
theorem charSim_agree (str1 str2 : Str) :
    calculateCharSimilarityOptimized str1 str2 = calculateCharSimilarity str1 str2 := by
  simp only [calculateCharSimilarityOptimized, calculateCharSimilarity]
  by_cases hg : str1 = [] ∨ str2 = []
  · rw [if_pos hg, if_pos hg]
  · rw [if_neg hg, if_neg hg]
    by_cases heq : str1 = str2
    · rw [if_pos heq]
      subst heq
      have hfil : str1.dedup.filter (fun c => str1.dedup.contains c) = str1.dedup := by
        refine List.filter_eq_self.mpr fun c hc => ?_
        simp only [List.elem_eq_mem, decide_eq_true_eq]
        exact hc
      have hs1 : str1 ≠ [] := by tauto
      have hd : 0 < str1.dedup.length :=
        List.length_pos.mpr (by simpa [List.dedup_eq_nil] using hs1)
      have hu : (str1.dedup ++ str1.dedup).dedup.length = str1.dedup.length := by
        have h := charSim_union_eq str1 str1
        rw [hfil] at h
        omega
      rw [hfil, hu, if_pos hd, div_self (by exact_mod_cast hd.ne')]
    · rw [if_neg heq, charSim_union_eq]

-- ==================== aggregator lemmas ====================

theorem normalizeStr_length (cs : Bool) (s : Str) :
    (normalizeStr cs s).length = s.length := by
  rw [normalizeStr]
  split_ifs <;> simp

theorem normalizeStr_ne_nil {cs : Bool} {s : Str} (h : s ≠ []) :
    normalizeStr cs s ≠ [] := by
  intro hc
  apply h
  have := normalizeStr_length cs s
  rw [hc] at this
  exact List.length_eq_zero.mp this.symm

theorem ite_max_zero (c : Prop) [Decidable c] (w : ℚ) :
    (if c then max 0 w else 0) = max 0 (if c then w else 0) := by
  split_ifs <;> simp

theorem ite_max_anchored (c : Prop) [Decidable c] (x w : ℚ) :
    (if c then max (max 0 x) w else max 0 x) =
      max 0 (max x (if c then w else 0)) := by
  split_ifs with h
  · rw [max_assoc]
  · rw [max_comm x 0, ← max_assoc, max_self]

theorem ite_max_nonneg {c : Prop} [Decidable c] {x w : ℚ} (hx : 0 ≤ x) :
    0 ≤ if c then max x w else x := by
  split_ifs
  · exact le_trans hx (le_max_left x w)
  · exact hx

theorem ite_ite_max_nonneg {c c' : Prop} [Decidable c] [Decidable c']
    {x w : ℚ} (hx : 0 ≤ x) :
    0 ≤ if c then (if c' then max x w else x) else x := by
  split_ifs
  exacts [le_trans hx (le_max_left x w), hx, hx]

theorem baseMaxScore_nonneg (wc : WeightConfig) (term : Str)
    (searchWords : List Str) (nfv : Str) :
    0 ≤ baseMaxScore wc term searchWords nfv := by
  simp only [baseMaxScore]
  set S1 := calculateSubstringMatch nfv term
  set S2 := calculateCommonPrefix nfv term
  set SW := (searchWords.filter (fun sw =>
    (splitWords nfv).any (fun fw => jsIncludes fw sw || jsIncludes sw fw))).length
  set S3 := calculateCharSimilarityOptimized nfv term
  set S4 := calculateContinuousMatch nfv term
  set S5 := calculateChineseWordMatch nfv term
  set S6 := calculateLengthSimilarity nfv term
  exact le_trans (ite_max_nonneg (ite_max_nonneg (le_trans (ite_ite_max_nonneg
    (ite_max_nonneg (ite_max_nonneg (ite_max_nonneg (ite_max_nonneg
      (le_refl 0)))))) (le_max_left _ _)))) (le_max_left _ _)

theorem scoreItemAll_fst_nonneg (wc : WeightConfig) (cs : Bool) (term : Str)
    (searchWords : List Str) (fv : Str) :
    0 ≤ (scoreItemAll wc cs term searchWords fv).1 := by
  simp only [scoreItemAll]
  by_cases hfv : fv = []
  · rw [if_pos hfv]
  · rw [if_neg hfv]
    set SWM := (searchWords.filter (fun sw =>
      (splitWords (normalizeStr cs fv)).any (fun fw =>
        jsIncludes fw sw || jsIncludes sw fw))).length
    set CH := calculateCharSimilarity (normalizeStr cs fv) term
    set L := calculateLengthSimilarity (normalizeStr cs fv) term
    set ED := calculateEditDistance (normalizeStr cs fv) term
    exact le_trans (le_trans (le_trans (ite_max_nonneg (ite_max_nonneg
      (ite_max_nonneg (ite_max_nonneg (le_refl 0))))) (le_max_left _ _))
      (le_max_left _ _)) (le_max_left _ _)

-- ==================== claims ====================

/-- C1, counterexample: on the strings `"ba"` and `"ayy"` with
`maxDistance = 1` the bounded engine returns `3`, the true Levenshtein
distance.  This refutes both halves of the claim at this input: the
returned value is greater than `maxDistance + 1 = 2`, and the true
distance exceeds `maxDistance` yet the value returned is not
`maxDistance + 1`. -/
theorem claim_C1_counterexample :
    calculateEditDistanceOptimized ['b','a'] ['a','y','y'] 1 = 3 ∧
    lev ['b','a'] ['a','y','y'] = 3 ∧
    ¬(calculateEditDistanceOptimized ['b','a'] ['a','y','y'] 1 ≤ 1 + 1) ∧
    calculateEditDistanceOptimized ['b','a'] ['a','y','y'] 1 ≠ 1 + 1 := by
  refine ⟨by decide, ?_, by decide, by decide⟩
  rw [← calculateEditDistance_eq_lev]
  decide

/-- C1, amended: for every pair of strings and every non-negative
`maxDistance`, `calculateEditDistanceOptimized` returns either the true
Levenshtein distance or exactly `maxDistance + 1`, and returns a value
strictly greater than `maxDistance` (not necessarily exactly
`maxDistance + 1`) whenever the true distance exceeds `maxDistance`. -/
theorem claim_C1 (str1 str2 : Str) (maxDistance : Nat) :
    (calculateEditDistanceOptimized str1 str2 maxDistance = lev str1 str2 ∨
      calculateEditDistanceOptimized str1 str2 maxDistance = maxDistance + 1) ∧
    (maxDistance < lev str1 str2 →
      maxDistance < calculateEditDistanceOptimized str1 str2 maxDistance) := by
  rcases calculateEditDistanceOptimized_spec str1 str2 maxDistance with h | ⟨h1, h2⟩
  · exact ⟨Or.inl h, fun hlt => h ▸ hlt⟩
  · exact ⟨Or.inr h1, fun _ => by omega⟩

/-- C1, witness: the amended theorem applied at `"ba"`, `"ayy"`,
`maxDistance = 1`, where the true distance `3` exceeds the bound. -/
theorem claim_C1_witness :
    1 < calculateEditDistanceOptimized ['b','a'] ['a','y','y'] 1 :=
  (claim_C1 ['b','a'] ['a','y','y'] 1).2 (by
    rw [← calculateEditDistance_eq_lev]
    decide)

/-- C2: in a call of `smartFuzzySearch` that passes the outer guards
(non-empty search term, normalized term length at least 2), every
candidate with a truthy field value whose normalized field value equals
the normalized search term is assigned score exactly
`weightConfig.exactMatch` and match details with all three booleans
true. -/
theorem claim_C2 (wc : WeightConfig) (minScore : ℚ) (caseSensitive : Bool)
    (maxEditDistance : Nat) (searchTerm fieldValue : Str)
    (hterm : searchTerm ≠ [])
    (hlen : 2 ≤ (normalizeStr caseSensitive searchTerm).length)
    (hfv : fieldValue ≠ [])
    (heq : normalizeStr caseSensitive fieldValue =
      normalizeStr caseSensitive searchTerm) :
    scoreItem wc minScore caseSensitive maxEditDistance
        (normalizeStr caseSensitive searchTerm)
        (splitWords (normalizeStr caseSensitive searchTerm)) fieldValue =
      (wc.exactMatch, ⟨true, true, true, 1, 1, 1, none⟩) := by
  simp only [scoreItem]
  rw [if_neg hfv, heq]
  simp [Nat.dist_self]

/-- C2, witness: the default configuration at search term `"Ab"` and
field value `"aB"`, which normalize to the same string. -/
theorem claim_C2_witness :
    scoreItem DEFAULT_WEIGHT_CONFIG (3/10) false 10
        (normalizeStr false ['A','b'])
        (splitWords (normalizeStr false ['A','b'])) ['a','B'] =
      (DEFAULT_WEIGHT_CONFIG.exactMatch, ⟨true, true, true, 1, 1, 1, none⟩) :=
  claim_C2 DEFAULT_WEIGHT_CONFIG (3/10) false 10 ['A','b'] ['a','B']
    (by decide) (by decide) (by decide) (by decide)

/-- C3: the bounded engine returns either exactly the value of the
unbounded `calculateEditDistance` or a value strictly greater than
`maxDistance`; whenever the unbounded distance is at most `maxDistance`
the two engines agree. -/
theorem claim_C3 (str1 str2 : Str) (maxDistance : Nat) :
    (calculateEditDistanceOptimized str1 str2 maxDistance =
        calculateEditDistance str1 str2 ∨
      maxDistance < calculateEditDistanceOptimized str1 str2 maxDistance) ∧
    (calculateEditDistance str1 str2 ≤ maxDistance →
      calculateEditDistanceOptimized str1 str2 maxDistance =
        calculateEditDistance str1 str2) := by
  rw [calculateEditDistance_eq_lev]
  rcases calculateEditDistanceOptimized_spec str1 str2 maxDistance with h | ⟨h1, h2⟩
  · exact ⟨Or.inl h, fun _ => h⟩
  · exact ⟨Or.inr (by omega), fun hle => absurd hle (by omega)⟩

/-- C3, witness: at `"ab"` vs `"ac"` with `maxDistance = 5` the true
distance `1` is within the bound, so the engines agree. -/
theorem claim_C3_witness :
    calculateEditDistanceOptimized ['a','b'] ['a','c'] 5 =
      calculateEditDistance ['a','b'] ['a','c'] :=
  (claim_C3 ['a','b'] ['a','c'] 5).2 (by decide)
/-- C4: for every candidate with a truthy field value, and weights in the
range documented by the data model (non-negative), the score emitted by
the all-matches aggregator equals the maximum of its seven weighted
heuristic sub-scores (exact, prefix, contains, word-boundary,
character-similarity, length-similarity, edit-similarity), not their sum:
the accumulated `totalScore` has no effect on the result. -/
theorem claim_C4 (wc : WeightConfig) (cs : Bool) (term : Str)
    (searchWords : List Str) (fv : Str) (hfv : fv ≠ [])
    (h1 : 0 ≤ wc.exactMatch) (h2 : 0 ≤ wc.prefixMatch) (h3 : 0 ≤ wc.containsMatch)
    (h4 : 0 ≤ wc.charSimilarity) (h5 : 0 ≤ wc.lengthSimilarity)
    (h6 : 0 ≤ wc.wordBoundary) :
    (scoreItemAll wc cs term searchWords fv).1 =
      max (if normalizeStr cs fv = term then wc.exactMatch else 0)
      (max (if jsStartsWith (normalizeStr cs fv) term ||
              jsStartsWith term (normalizeStr cs fv) then wc.prefixMatch else 0)
      (max (if jsIncludes (normalizeStr cs fv) term ||
              jsIncludes term (normalizeStr cs fv) then wc.containsMatch else 0)
      (max ((((searchWords.filter (fun sw =>
              (splitWords (normalizeStr cs fv)).any (fun fw =>
                jsIncludes fw sw || jsIncludes sw fw))).length : ℚ) /
            (searchWords.length : ℚ)) * wc.wordBoundary)
      (max (calculateCharSimilarity (normalizeStr cs fv) term * wc.charSimilarity)
      (max (calculateLengthSimilarity (normalizeStr cs fv) term * wc.lengthSimilarity)
        ((if 0 < max (normalizeStr cs fv).length term.length then
            (((max (normalizeStr cs fv).length term.length : Nat) : ℚ) -
              (calculateEditDistance (normalizeStr cs fv) term : ℚ)) /
            ((max (normalizeStr cs fv).length term.length : Nat) : ℚ)
          else 0) * wc.charSimilarity * (1/2))))))) := by
  have hdml : calculateEditDistance (normalizeStr cs fv) term ≤
      max (normalizeStr cs fv).length term.length := by
    rw [calculateEditDistance_eq_lev]
    exact lev_le_max _ _
  have hes : 0 ≤ (if 0 < max (normalizeStr cs fv).length term.length then
      (((max (normalizeStr cs fv).length term.length : Nat) : ℚ) -
        (calculateEditDistance (normalizeStr cs fv) term : ℚ)) /
      ((max (normalizeStr cs fv).length term.length : Nat) : ℚ)
    else 0) := by
    split_ifs with h
    · apply div_nonneg _ (Nat.cast_nonneg _)
      rw [sub_nonneg]
      exact_mod_cast hdml
    · exact le_refl 0
  simp only [scoreItemAll]
  rw [if_neg hfv]
  set SWM := (searchWords.filter (fun sw =>
      (splitWords (normalizeStr cs fv)).any (fun fw =>
        jsIncludes fw sw || jsIncludes sw fw))).length with hSWM
  set W := ((SWM : ℚ) / (searchWords.length : ℚ)) * wc.wordBoundary with hW
  set CH := calculateCharSimilarity (normalizeStr cs fv) term * wc.charSimilarity
    with hCH
  set L := calculateLengthSimilarity (normalizeStr cs fv) term * wc.lengthSimilarity
    with hL
  set ES := (if 0 < max (normalizeStr cs fv).length term.length then
      (((max (normalizeStr cs fv).length term.length : Nat) : ℚ) -
        (calculateEditDistance (normalizeStr cs fv) term : ℚ)) /
      ((max (normalizeStr cs fv).length term.length : Nat) : ℚ)
    else 0) with hES
  have hed : 0 ≤ ES * wc.charSimilarity * (1/2) := by
    apply mul_nonneg (mul_nonneg hes h4)
    norm_num
  rw [ite_max_zero, ite_max_anchored, ite_max_anchored, ite_max_anchored]
  by_cases hq : 0 < SWM
  · rw [if_pos hq]
    simp only [max_assoc]
    refine max_eq_right (le_trans hed ?_)
    simp [le_max_iff]
  · have hz : W = 0 := by
      rw [hW]
      have h0 : SWM = 0 := by omega
      rw [h0]
      norm_num
    rw [if_neg hq, hz]
    simp only [max_assoc]
    rw [max_eq_right (le_trans hed (by simp [le_max_iff] :
      ES * wc.charSimilarity * (1/2) ≤
        max CH (max L (ES * wc.charSimilarity * (1/2)))))]
    refine max_eq_right (le_trans hed ?_)
    simp [le_max_iff]

/-- C4, witness: the claim applied to the default weight configuration at
field value `"ax"` against term `"ab"`. -/
theorem claim_C4_witness :
    (scoreItemAll DEFAULT_WEIGHT_CONFIG false ['a','b']
        (splitWords ['a','b']) ['a','x']).1 =
      max (if normalizeStr false ['a','x'] = ['a','b'] then
            DEFAULT_WEIGHT_CONFIG.exactMatch else 0)
      (max (if jsStartsWith (normalizeStr false ['a','x']) ['a','b'] ||
              jsStartsWith ['a','b'] (normalizeStr false ['a','x']) then
            DEFAULT_WEIGHT_CONFIG.prefixMatch else 0)
      (max (if jsIncludes (normalizeStr false ['a','x']) ['a','b'] ||
              jsIncludes ['a','b'] (normalizeStr false ['a','x']) then
            DEFAULT_WEIGHT_CONFIG.containsMatch else 0)
      (max (((((splitWords ['a','b']).filter (fun sw =>
              (splitWords (normalizeStr false ['a','x'])).any (fun fw =>
                jsIncludes fw sw || jsIncludes sw fw))).length : ℚ) /
            ((splitWords ['a','b']).length : ℚ)) * DEFAULT_WEIGHT_CONFIG.wordBoundary)
      (max (calculateCharSimilarity (normalizeStr false ['a','x']) ['a','b'] *
            DEFAULT_WEIGHT_CONFIG.charSimilarity)
      (max (calculateLengthSimilarity (normalizeStr false ['a','x']) ['a','b'] *
            DEFAULT_WEIGHT_CONFIG.lengthSimilarity)
        ((if 0 < max (normalizeStr false ['a','x']).length (['a','b'] : Str).length then
            (((max (normalizeStr false ['a','x']).length (['a','b'] : Str).length : Nat) : ℚ) -
              (calculateEditDistance (normalizeStr false ['a','x']) ['a','b'] : ℚ)) /
            ((max (normalizeStr false ['a','x']).length (['a','b'] : Str).length : Nat) : ℚ)
          else 0) * DEFAULT_WEIGHT_CONFIG.charSimilarity * (1/2))))))) :=
  claim_C4 DEFAULT_WEIGHT_CONFIG false ['a','b'] (splitWords ['a','b']) ['a','x']
    (by decide) (by norm_num [DEFAULT_WEIGHT_CONFIG])
    (by norm_num [DEFAULT_WEIGHT_CONFIG]) (by norm_num [DEFAULT_WEIGHT_CONFIG])
    (by norm_num [DEFAULT_WEIGHT_CONFIG]) (by norm_num [DEFAULT_WEIGHT_CONFIG])
    (by norm_num [DEFAULT_WEIGHT_CONFIG])
/-- C5: on the main scoring path of `smartFuzzySearch` (truthy field
value, length pre-filter passed, not an exact match), if the running
maximum over the non-edit-distance heuristics reaches `minScore` the
final score is that running maximum and the edit-similarity detail stays
zero (edit distance is not used); otherwise, when the bounded distance
`d` is within `maxEditDistance`, the final score is the maximum of the
running score and `((maxLen - d) / maxLen) * charSimilarity weight *
0.5`, and when it is not, the final score is again the running
maximum. -/
theorem claim_C5 (wc : WeightConfig) (minScore : ℚ) (caseSensitive : Bool)
    (maxEditDistance : Nat) (term : Str) (searchWords : List Str) (fv : Str)
    (hfv : fv ≠ [])
    (hlen : Nat.dist (normalizeStr caseSensitive fv).length term.length ≤
      maxEditDistance * 2)
    (hne : normalizeStr caseSensitive fv ≠ term) :
    (minScore ≤ baseMaxScore wc term searchWords (normalizeStr caseSensitive fv) →
      (scoreItem wc minScore caseSensitive maxEditDistance term searchWords fv).1 =
        baseMaxScore wc term searchWords (normalizeStr caseSensitive fv) ∧
      (scoreItem wc minScore caseSensitive maxEditDistance term searchWords
        fv).2.editSimilarity = 0) ∧
    (baseMaxScore wc term searchWords (normalizeStr caseSensitive fv) < minScore →
      (calculateEditDistanceOptimized (normalizeStr caseSensitive fv) term
          maxEditDistance ≤ maxEditDistance →
        (scoreItem wc minScore caseSensitive maxEditDistance term searchWords
            fv).1 =
          max (baseMaxScore wc term searchWords (normalizeStr caseSensitive fv))
            ((((max (normalizeStr caseSensitive fv).length term.length : Nat) : ℚ) -
                (calculateEditDistanceOptimized (normalizeStr caseSensitive fv)
                  term maxEditDistance : ℚ)) /
              ((max (normalizeStr caseSensitive fv).length term.length : Nat) : ℚ) *
              wc.charSimilarity * (1/2))) ∧
      (maxEditDistance < calculateEditDistanceOptimized
          (normalizeStr caseSensitive fv) term maxEditDistance →
        (scoreItem wc minScore caseSensitive maxEditDistance term searchWords
            fv).1 =
          baseMaxScore wc term searchWords (normalizeStr caseSensitive fv))) := by
  have hml : 0 < max (normalizeStr caseSensitive fv).length term.length := by
    have : 0 < (normalizeStr caseSensitive fv).length :=
      List.length_pos.mpr (normalizeStr_ne_nil hfv)
    omega
  simp only [scoreItem]
  rw [if_neg hfv, if_neg (not_lt.mpr hlen), if_neg hne]
  refine ⟨fun hm => ?_, fun hm => ⟨fun hd => ?_, fun hd => ?_⟩⟩
  · rw [if_neg (not_lt.mpr hm)]
    exact ⟨rfl, by norm_num⟩
  · rw [if_pos hm, if_pos hd, if_pos hml]
  · rw [if_pos hm, if_neg (not_le.mpr hd)]

/-- C5, witness: with `minScore = 0` the heuristic running maximum always
suffices, so at field value `"ax"` and term `"ab"` the emitted score is
the running maximum and the edit-similarity detail is zero. -/
theorem claim_C5_witness :
    (scoreItem DEFAULT_WEIGHT_CONFIG 0 false 10 ['a','b']
        (splitWords ['a','b']) ['a','x']).1 =
      baseMaxScore DEFAULT_WEIGHT_CONFIG ['a','b'] (splitWords ['a','b'])
        (normalizeStr false ['a','x']) ∧
    (scoreItem DEFAULT_WEIGHT_CONFIG 0 false 10 ['a','b']
        (splitWords ['a','b']) ['a','x']).2.editSimilarity = 0 :=
  (claim_C5 DEFAULT_WEIGHT_CONFIG 0 false 10 ['a','b'] (splitWords ['a','b'])
      ['a','x'] (by decide) (by decide) (by decide)).1
    (baseMaxScore_nonneg DEFAULT_WEIGHT_CONFIG ['a','b'] (splitWords ['a','b'])
      (normalizeStr false ['a','x']))

/-- C6: `smartFuzzySearch` returns `none` whenever the collection is
missing or not an array, the field selector is unset, the search term is
empty, or the normalized search term is shorter than 2 characters; in
particular any 1-character search term yields `none` for every
collection, field and option record. -/
theorem claim_C6 {α : Type} :
    (∀ (fld : Option (α → Str)) (searchTerm : Str) (options : SearchOptions),
      smartFuzzySearch (none : Option (List α)) fld searchTerm options = none) ∧
    (∀ (list : Option (List α)) (searchTerm : Str) (options : SearchOptions),
      smartFuzzySearch list (none : Option (α → Str)) searchTerm options = none) ∧
    (∀ (l : List α) (f : α → Str) (options : SearchOptions),
      smartFuzzySearch (some l) (some f) [] options = none) ∧
    (∀ (l : List α) (f : α → Str) (searchTerm : Str) (options : SearchOptions),
      (normalizeStr (options.caseSensitive.getD false) searchTerm).length < 2 →
        smartFuzzySearch (some l) (some f) searchTerm options = none) ∧
    (∀ (l : List α) (f : α → Str) (c : Char) (options : SearchOptions),
      smartFuzzySearch (some l) (some f) [c] options = none) := by
  refine ⟨fun fld st opts => ?_, fun list st opts => ?_, fun l f opts => ?_,
    fun l f st opts h => ?_, fun l f c opts => ?_⟩
  · cases fld <;> rfl
  · cases list <;> rfl
  · simp [smartFuzzySearch]
  · simp only [smartFuzzySearch]
    by_cases hst : st = []
    · rw [if_pos hst]
    · rw [if_neg hst, if_pos h]
  · simp only [smartFuzzySearch]
    rw [if_neg (by simp : ¬([c] = ([] : Str)))]
    rw [if_pos (by rw [normalizeStr_length]; norm_num)]

/-- C6, witness: the minimum-length gate applied to the 1-character term
`"a"` over a non-empty collection. -/
theorem claim_C6_witness :
    smartFuzzySearch (some [['x','y']]) (some (fun a => a)) ['a']
      ⟨none, none, noOverride, none, none⟩ = none :=
  (claim_C6 (α := Str)).2.2.2.1 [['x','y']] (fun a => a) ['a']
    ⟨none, none, noOverride, none, none⟩ (by decide)

/-- C7: every non-boolean heuristic scorer returns a value in the closed
interval `[0, 1]` on every pair of input strings: the substring ratio,
the common-prefix ratio, the continuous-run score, the ideographic
word-overlap score, both character-set-Jaccard implementations, and the
length ratio. -/
theorem claim_C7 :
    (∀ target search : Str, 0 ≤ calculateSubstringMatch target search ∧
      calculateSubstringMatch target search ≤ 1) ∧
    (∀ str1 str2 : Str, 0 ≤ calculateCommonPrefix str1 str2 ∧
      calculateCommonPrefix str1 str2 ≤ 1) ∧
    (∀ target search : Str, 0 ≤ calculateContinuousMatch target search ∧
      calculateContinuousMatch target search ≤ 1) ∧
    (∀ target search : Str, 0 ≤ calculateChineseWordMatch target search ∧
      calculateChineseWordMatch target search ≤ 1) ∧
    (∀ str1 str2 : Str, 0 ≤ calculateCharSimilarityOptimized str1 str2 ∧
      calculateCharSimilarityOptimized str1 str2 ≤ 1) ∧
    (∀ str1 str2 : Str, 0 ≤ calculateCharSimilarity str1 str2 ∧
      calculateCharSimilarity str1 str2 ≤ 1) ∧
    (∀ str1 str2 : Str, 0 ≤ calculateLengthSimilarity str1 str2 ∧
      calculateLengthSimilarity str1 str2 ≤ 1) :=
  ⟨calculateSubstringMatch_bounds, calculateCommonPrefix_bounds,
    calculateContinuousMatch_bounds, calculateChineseWordMatch_bounds,
    calculateCharSimilarityOptimized_bounds, calculateCharSimilarity_bounds,
    calculateLengthSimilarity_bounds⟩

/-- C8: every item returned by `smartFuzzySearchAll` has a computed score
at least the effective `minScore`: membership in the output implies the
per-candidate score of that item clears the threshold. -/
theorem claim_C8 {α : Type} (l : List α) (f : α → Str) (searchTerm : Str)
    (options : AllSearchOptions) (x : α)
    (hx : x ∈ smartFuzzySearchAll (some l) (some f) searchTerm options) :
    options.minScore.getD (3/10) ≤
      (scoreItemAll (mergeWeights options.weightConfig)
        (options.caseSensitive.getD false)
        (normalizeStr (options.caseSensitive.getD false) searchTerm)
        (splitWords (normalizeStr (options.caseSensitive.getD false) searchTerm))
        (f x)).1 := by
  simp only [smartFuzzySearchAll] at hx
  by_cases hst : searchTerm = []
  · rw [if_pos hst] at hx
    cases hx
  · rw [if_neg hst] at hx
    rw [List.mem_map] at hx
    obtain ⟨r, hr, hri⟩ := hx
    rw [List.mem_mergeSort, List.mem_filter] at hr
    obtain ⟨hrm, hrs⟩ := hr
    rw [List.mem_map] at hrm
    obtain ⟨a, ha, hag⟩ := hrm
    subst hag
    subst hri
    simpa using hrs
/-- C8, witness: the singleton collection `["ab"]` searched for `"ab"`
with `minScore = 0`; the returned item's score clears the threshold. -/
theorem claim_C8_witness :
    (0 : ℚ) ≤
      (scoreItemAll (mergeWeights noOverride) false
        (normalizeStr false ['a','b'])
        (splitWords (normalizeStr false ['a','b'])) ['a','b']).1 :=
  claim_C8 [['a','b']] (fun a => a) ['a','b'] ⟨some 0, none, noOverride⟩
    ['a','b'] (by
      have h0 : (0 : ℚ) ≤
          (scoreItemAll (mergeWeights noOverride) false
            (normalizeStr false ['a','b'])
            (splitWords (normalizeStr false ['a','b'])) ['a','b']).1 :=
        scoreItemAll_fst_nonneg _ _ _ _ _
      simp only [smartFuzzySearchAll]
      rw [if_neg (by decide : ¬(['a','b'] = ([] : Str)))]
      simp [decide_eq_true h0])
/-- C9: with case sensitivity off (unset or `false`), both entry points
are invariant under case changes of the search term, and both
per-candidate aggregators are invariant under case changes of the field
value: search terms with equal lowercasings produce the same result, and
field values with equal lowercasings receive the same score and
details. -/
theorem claim_C9 {α : Type} :
    (∀ (t1 t2 : Str), t1.map Char.toLower = t2.map Char.toLower →
      ∀ (list : Option (List α)) (fld : Option (α → Str))
        (options : SearchOptions), options.caseSensitive.getD false = false →
        smartFuzzySearch list fld t1 options =
          smartFuzzySearch list fld t2 options) ∧
    (∀ (t1 t2 : Str), t1.map Char.toLower = t2.map Char.toLower →
      ∀ (list : Option (List α)) (fld : Option (α → Str))
        (options : AllSearchOptions), options.caseSensitive.getD false = false →
        smartFuzzySearchAll list fld t1 options =
          smartFuzzySearchAll list fld t2 options) ∧
    (∀ (wc : WeightConfig) (minScore : ℚ) (maxEditDistance : Nat) (term : Str)
        (searchWords : List Str) (fv1 fv2 : Str),
      fv1.map Char.toLower = fv2.map Char.toLower →
        scoreItem wc minScore false maxEditDistance term searchWords fv1 =
          scoreItem wc minScore false maxEditDistance term searchWords fv2) ∧
    (∀ (wc : WeightConfig) (term : Str) (searchWords : List Str) (fv1 fv2 : Str),
      fv1.map Char.toLower = fv2.map Char.toLower →
        scoreItemAll wc false term searchWords fv1 =
          scoreItemAll wc false term searchWords fv2) := by
  refine ⟨fun t1 t2 h list fld opts hcs => ?_,
    fun t1 t2 h list fld opts hcs => ?_,
    fun wc ms maxED term sw fv1 fv2 h => ?_,
    fun wc term sw fv1 fv2 h => ?_⟩
  · have hlen : t1.length = t2.length := by
      have := congrArg List.length h
      simpa using this
    have hnorm : normalizeStr (opts.caseSensitive.getD false) t1 =
        normalizeStr (opts.caseSensitive.getD false) t2 := by
      rw [hcs]
      simpa [normalizeStr] using h
    rcases list with _ | l
    · rfl
    rcases fld with _ | f
    · rfl
    simp only [smartFuzzySearch]
    by_cases h1 : t1 = []
    · have h2 : t2 = [] := by
        rw [h1] at hlen
        exact List.length_eq_zero.mp hlen.symm
      rw [if_pos h1, if_pos h2]
    · have h2 : t2 ≠ [] := fun hc => h1 (by
        rw [hc] at hlen
        exact List.length_eq_zero.mp hlen)
      rw [if_neg h1, if_neg h2, hnorm]
  · have hlen : t1.length = t2.length := by
      have := congrArg List.length h
      simpa using this
    have hnorm : normalizeStr (opts.caseSensitive.getD false) t1 =
        normalizeStr (opts.caseSensitive.getD false) t2 := by
      rw [hcs]
      simpa [normalizeStr] using h
    rcases list with _ | l
    · rfl
    rcases fld with _ | f
    · rfl
    simp only [smartFuzzySearchAll]
    by_cases h1 : t1 = []
    · have h2 : t2 = [] := by
        rw [h1] at hlen
        exact List.length_eq_zero.mp hlen.symm
      rw [if_pos h1, if_pos h2]
    · have h2 : t2 ≠ [] := fun hc => h1 (by
        rw [hc] at hlen
        exact List.length_eq_zero.mp hlen)
      rw [if_neg h1, if_neg h2, hnorm]
  · have hlen : fv1.length = fv2.length := by
      have := congrArg List.length h
      simpa using this
    have hnorm : normalizeStr false fv1 = normalizeStr false fv2 := by
      simpa [normalizeStr] using h
    simp only [scoreItem]
    by_cases h1 : fv1 = []
    · have h2 : fv2 = [] := by
        rw [h1] at hlen
        exact List.length_eq_zero.mp hlen.symm
      rw [if_pos h1, if_pos h2]
    · have h2 : fv2 ≠ [] := fun hc => h1 (by
        rw [hc] at hlen
        exact List.length_eq_zero.mp hlen)
      rw [if_neg h1, if_neg h2, hnorm]
  · have hlen : fv1.length = fv2.length := by
      have := congrArg List.length h
      simpa using this
    have hnorm : normalizeStr false fv1 = normalizeStr false fv2 := by
      simpa [normalizeStr] using h
    simp only [scoreItemAll]
    by_cases h1 : fv1 = []
    · have h2 : fv2 = [] := by
        rw [h1] at hlen
        exact List.length_eq_zero.mp hlen.symm
      rw [if_pos h1, if_pos h2]
    · have h2 : fv2 ≠ [] := fun hc => h1 (by
        rw [hc] at hlen
        exact List.length_eq_zero.mp hlen)
      rw [if_neg h1, if_neg h2, hnorm]

/-- C9, witness: the best-match entry point applied to search terms
`"Ab"` and `"aB"`, which have equal lowercasings, over a concrete
collection with the default (case-insensitive) options. -/
theorem claim_C9_witness :
    smartFuzzySearch (some [['a','b']]) (some (fun a => a)) ['A','b']
        ⟨none, none, noOverride, none, none⟩ =
      smartFuzzySearch (some [['a','b']]) (some (fun a => a)) ['a','B']
        ⟨none, none, noOverride, none, none⟩ :=
  (claim_C9 (α := Str)).1 ['A','b'] ['a','B'] (by decide)
    (some [['a','b']]) (some (fun a => a))
    ⟨none, none, noOverride, none, none⟩ (by decide)

/-- C10: the two character-similarity implementations compute the same
Jaccard similarity of unique character sets: they agree on every pair of
strings, and both return `0` whenever either string is empty. -/
theorem claim_C10 (str1 str2 : Str) :
    calculateCharSimilarityOptimized str1 str2 =
      calculateCharSimilarity str1 str2 ∧
    (str1 = [] ∨ str2 = [] →
      calculateCharSimilarityOptimized str1 str2 = 0 ∧
      calculateCharSimilarity str1 str2 = 0) := by
  refine ⟨charSim_agree str1 str2, fun h => ⟨?_, ?_⟩⟩
  · rw [calculateCharSimilarityOptimized, if_pos h]
  · rw [calculateCharSimilarity, if_pos h]

/-- C10, witness: both implementations return `0` on the pair
`("", "a")`. -/
theorem claim_C10_witness :
    calculateCharSimilarityOptimized [] ['a'] = 0 ∧
    calculateCharSimilarity [] ['a'] = 0 :=
  (claim_C10 [] ['a']).2 (Or.inl rfl)

end FuzzySearch
